import Mathlib

/-!
Verification development for the two command-line utilities in this repository:
the color palette extractor (`color_palette_extractor.py`) and the Git commit
analyzer (`git_commit_analyzer.py`).

Modelling conventions:
* Python strings are modelled as `List Char`; `str.split(sep)` is `splitOnC`.
* Python float arithmetic is modelled as exact rational arithmetic over `ℚ`
  (the scripts only perform a handful of divisions, multiplications and
  comparisons on small quantities).
* `collections.Counter` built from a list is modelled by the list of its
  distinct elements in first-occurrence order paired with their multiplicities
  (`counterItems`); `Counter.most_common(n)` performs a stable descending sort
  by count over the items in insertion order, which is modelled by sorting with
  the injective key (count descending, first-occurrence index ascending)
  (`mostCommon`).
* External effects (the image library, the `git` subprocess, the filesystem)
  are modelled as explicit inputs to the pure functions they feed.
-/

namespace PyCounter

variable {K : Type} [DecidableEq K]

/-- Scan `l` left to right, keeping each element not already seen: the body of
the dict-key-order recursion. -/
def firstSeenAux (seen : List K) : List K → List K
  | [] => []
  | x :: xs => if x ∈ seen then firstSeenAux seen xs else x :: firstSeenAux (x :: seen) xs

/-- The distinct elements of `l` in order of first occurrence: the key order of
a Python dict (or `Counter`) built by scanning `l` left to right. -/
def firstSeen (l : List K) : List K := firstSeenAux [] l

theorem mem_firstSeenAux {a : K} :
    ∀ (l seen : List K), a ∈ firstSeenAux seen l ↔ a ∈ l ∧ a ∉ seen := by
  intro l
  induction l with
  | nil => intro seen; simp [firstSeenAux]
  | cons x xs ih =>
    intro seen
    simp only [firstSeenAux]
    split_ifs with hx
    · rw [ih seen]
      constructor
      · rintro ⟨hxs, hseen⟩
        exact ⟨List.mem_cons_of_mem _ hxs, hseen⟩
      · rintro ⟨hmem, hseen⟩
        rcases List.mem_cons.mp hmem with rfl | hxs
        · exact absurd hx hseen
        · exact ⟨hxs, hseen⟩
    · simp only [List.mem_cons, ih (x :: seen), List.mem_cons, not_or]
      constructor
      · rintro (rfl | ⟨hxs, hne, hseen⟩)
        · exact ⟨Or.inl rfl, hx⟩
        · exact ⟨Or.inr hxs, hseen⟩
      · rintro ⟨rfl | hxs, hseen⟩
        · exact Or.inl rfl
        · by_cases hax : a = x
          · exact Or.inl hax
          · exact Or.inr ⟨hxs, hax, hseen⟩

theorem mem_firstSeen {l : List K} {a : K} : a ∈ firstSeen l ↔ a ∈ l := by
  rw [firstSeen, mem_firstSeenAux]
  simp

theorem nodup_firstSeenAux : ∀ (l seen : List K), (firstSeenAux seen l).Nodup := by
  intro l
  induction l with
  | nil => intro seen; simp [firstSeenAux]
  | cons x xs ih =>
    intro seen
    simp only [firstSeenAux]
    split_ifs with hx
    · exact ih seen
    · refine List.nodup_cons.mpr ⟨fun hmem => ?_, ih (x :: seen)⟩
      exact ((mem_firstSeenAux xs (x :: seen)).mp hmem).2 (List.mem_cons_self x seen)

theorem nodup_firstSeen (l : List K) : (firstSeen l).Nodup := nodup_firstSeenAux l []

/-- The multiplicity of `k` in `l` (with the equality test fixed by
`DecidableEq K`). -/
def countOf (l : List K) (k : K) : Nat := List.count k l

/-- The index of the first occurrence of `k` in `l`. -/
def firstIdx (l : List K) (k : K) : Nat := List.indexOf k l

/-- The items of `Counter(l)` in dict order, each tagged with its count in `l`
and the index of its first occurrence in `l`. -/
def counterItems (l : List K) : List (K × Nat × Nat) :=
  (firstSeen l).map (fun k => (k, countOf l k, firstIdx l k))

/-- Stable-descending-sort order on counter items: larger count first; among
equal counts, smaller first-occurrence index first.  Because `counterItems`
lists the keys in first-occurrence order, sorting by this key is exactly the
stable descending sort by count that `Counter.most_common` performs. -/
def cntRel (x y : K × Nat × Nat) : Prop :=
  y.2.1 < x.2.1 ∨ (x.2.1 = y.2.1 ∧ x.2.2 ≤ y.2.2)

instance : DecidableRel (@cntRel K) := fun x y => by
  unfold cntRel; infer_instance

instance : IsTotal (K × Nat × Nat) cntRel where
  total x y := by
    rcases Nat.lt_trichotomy x.2.1 y.2.1 with h | h | h
    · exact Or.inr (Or.inl h)
    · rcases Nat.le_total x.2.2 y.2.2 with h2 | h2
      · exact Or.inl (Or.inr ⟨h, h2⟩)
      · exact Or.inr (Or.inr ⟨h.symm, h2⟩)
    · exact Or.inl (Or.inl h)

instance : IsTrans (K × Nat × Nat) cntRel where
  trans x y z hxy hyz := by
    rcases hxy with h1 | ⟨h1, h1'⟩ <;> rcases hyz with h2 | ⟨h2, h2'⟩
    · exact Or.inl (h2.trans h1)
    · exact Or.inl (h2 ▸ h1)
    · exact Or.inl (h1 ▸ h2)
    · exact Or.inr ⟨h1.trans h2, h1'.trans h2'⟩

/-- Model of `Counter(l).most_common(n)`: the `(key, count)` pairs, all keys
distinct, sorted by count descending, ties broken by first occurrence in `l`,
truncated to the first `n`. -/
def mostCommon (n : Nat) (l : List K) : List (K × Nat) :=
  (((counterItems l).insertionSort cntRel).take n).map (fun x => (x.1, x.2.1))

/-- Model of `Counter(l).most_common()` (no argument): all items, sorted. -/
def mostCommonAll (l : List K) : List (K × Nat) :=
  ((counterItems l).insertionSort cntRel).map (fun x => (x.1, x.2.1))

theorem mostCommon_length (n : Nat) (l : List K) : (mostCommon n l).length ≤ n := by
  simp only [mostCommon, List.length_map]
  exact (List.length_take_le _ _)

theorem mem_counterItems_eq {l : List K} {x : K × Nat × Nat} (hx : x ∈ counterItems l) :
    x = (x.1, countOf l x.1, firstIdx l x.1) ∧ x.1 ∈ l := by
  simp only [counterItems, List.mem_map] at hx
  obtain ⟨k, hk, rfl⟩ := hx
  exact ⟨rfl, mem_firstSeen.mp hk⟩

theorem mem_sorted_counterItems {l : List K} {x : K × Nat × Nat}
    (hx : x ∈ (counterItems l).insertionSort cntRel) :
    x = (x.1, countOf l x.1, firstIdx l x.1) ∧ x.1 ∈ l :=
  mem_counterItems_eq (((counterItems l).perm_insertionSort cntRel).mem_iff.mp hx)

theorem mostCommon_mem {n : Nat} {l : List K} {p : K × Nat} (hp : p ∈ mostCommon n l) :
    p.1 ∈ l ∧ p.2 = countOf l p.1 := by
  simp only [mostCommon, List.mem_map] at hp
  obtain ⟨x, hx, rfl⟩ := hp
  have := mem_sorted_counterItems (List.take_sublist n _ |>.mem hx)
  exact ⟨this.2, by rw [this.1]⟩

theorem nodup_keys_sorted (l : List K) :
    (((counterItems l).insertionSort cntRel).map Prod.fst).Nodup := by
  have hperm : List.Perm (((counterItems l).insertionSort cntRel).map Prod.fst)
      ((counterItems l).map Prod.fst) :=
    ((counterItems l).perm_insertionSort cntRel).map Prod.fst
  have : (counterItems l).map Prod.fst = firstSeen l := by
    simp [counterItems, List.map_map, Function.comp_def]
  rw [hperm.nodup_iff, this]
  exact nodup_firstSeen l

theorem mostCommon_pairwise (n : Nat) (l : List K) :
    (mostCommon n l).Pairwise (fun a b =>
      countOf l b.1 < countOf l a.1 ∨
        (countOf l a.1 = countOf l b.1 ∧ firstIdx l a.1 < firstIdx l b.1)) := by
  have hsorted : ((counterItems l).insertionSort cntRel).Pairwise cntRel :=
    List.sorted_insertionSort cntRel (counterItems l)
  have hne : ((counterItems l).insertionSort cntRel).Pairwise
      (fun x y => x.1 ≠ y.1) := by
    have := (nodup_keys_sorted l)
    rwa [List.Nodup, List.pairwise_map] at this
  have hcomb := hsorted.and hne
  have himp : ((counterItems l).insertionSort cntRel).Pairwise (fun x y =>
      countOf l y.1 < countOf l x.1 ∨
        (countOf l x.1 = countOf l y.1 ∧ firstIdx l x.1 < firstIdx l y.1)) := by
    refine hcomb.imp_of_mem (fun {x y} hx hy h => ?_)
    obtain ⟨hrel, hney⟩ := h
    obtain ⟨hxeq, hxmem⟩ := mem_sorted_counterItems hx
    obtain ⟨hyeq, hymem⟩ := mem_sorted_counterItems hy
    have hx2 : x.2.1 = countOf l x.1 := by rw [hxeq]
    have hy2 : y.2.1 = countOf l y.1 := by rw [hyeq]
    have hx3 : x.2.2 = firstIdx l x.1 := by rw [hxeq]
    have hy3 : y.2.2 = firstIdx l y.1 := by rw [hyeq]
    rcases hrel with h | ⟨heq, hle⟩
    · exact Or.inl (by rw [← hx2, ← hy2]; exact h)
    · refine Or.inr ⟨by rw [← hx2, ← hy2]; exact heq, ?_⟩
      rw [← hx3, ← hy3]
      refine lt_of_le_of_ne hle (fun hcontra => hney ?_)
      rw [hx3, hy3] at hcontra
      exact (List.indexOf_inj hxmem hymem).mp (by simpa [firstIdx] using hcontra)
  have htake := himp.sublist (List.take_sublist n _)
  rw [mostCommon, List.pairwise_map]
  exact htake

theorem mostCommon_keys_pairwise (n : Nat) (l : List K) :
    ((mostCommon n l).map Prod.fst).Pairwise (fun a b =>
      countOf l b < countOf l a ∨
        (countOf l a = countOf l b ∧ firstIdx l a < firstIdx l b)) := by
  rw [List.pairwise_map]
  exact mostCommon_pairwise n l

end PyCounter

namespace Palette

open PyCounter

/-- An RGB color: a triple of channel values, as produced by
`img.convert('RGB').getdata()` in `color_palette_extractor.py`. -/
abbrev Color := Nat × Nat × Nat

/-- A color is a valid RGB triple when every channel is in 0-255. -/
def InRange (c : Color) : Prop := c.1 ≤ 255 ∧ c.2.1 ≤ 255 ∧ c.2.2 ≤ 255

instance : DecidablePred InRange := fun c => by unfold InRange; infer_instance

/-- Model of the Python slice `pixels[::quality]` for `quality ≥ 1`: the
elements whose index is a multiple of `quality`, in order. -/
def takeEvery (quality : Nat) (l : List α) : List α :=
  (l.enum.filter (fun p => p.1 % quality == 0)).map Prod.snd

/-- Model of `get_dominant_colors` (`color_palette_extractor.py`, lines 19-57)
after the external image library has produced the list of RGB pixels of the
resized image: sample every `quality`-th pixel in raster order, count exact
color frequency with a `Counter`, and keep the colors of the `num_colors` most
common entries. -/
def get_dominant_colors (pixels : List Color) (num_colors : Nat) (quality : Nat) :
    List Color :=
  (mostCommon num_colors (takeEvery quality pixels)).map Prod.fst

theorem takeEvery_subset (quality : Nat) (l : List α) :
    ∀ x ∈ takeEvery quality l, x ∈ l := by
  intro x hx
  simp only [takeEvery, List.mem_map, List.mem_filter] at hx
  obtain ⟨⟨i, y⟩, ⟨hmem, _⟩, rfl⟩ := hx
  rw [List.mk_mem_enum_iff_getElem?] at hmem
  exact List.getElem?_mem hmem

/-- Python float modulo with divisor 1 (`x % 1.0`): the fractional part. -/
def pymod1 (x : ℚ) : ℚ := x - ⌊x⌋

/-- Model of `colorsys.rgb_to_hsv` from the Python standard library, on exact
rationals.  Inputs are the channel values already divided by 255. -/
def rgb_to_hsv (r g b : ℚ) : ℚ × ℚ × ℚ :=
  let maxc := max r (max g b)
  let minc := min r (min g b)
  let rangec := maxc - minc
  let v := maxc
  if minc = maxc then (0, 0, v)
  else
    let s := rangec / maxc
    let rc := (maxc - r) / rangec
    let gc := (maxc - g) / rangec
    let bc := (maxc - b) / rangec
    let h := if r = maxc then bc - gc else if g = maxc then 2 + rc - gc else 4 + gc - rc
    (pymod1 (h / 6), s, v)

/-- The HSV triple of an RGB color, as computed at the top of `get_color_name`
(`color_palette_extractor.py`, line 62). -/
def hsvOf (rgb : Color) : ℚ × ℚ × ℚ :=
  rgb_to_hsv ((rgb.1 : ℚ) / 255) ((rgb.2.1 : ℚ) / 255) ((rgb.2.2 : ℚ) / 255)

/-- The hue of an RGB color in degrees (`h = h * 360`, line 63). -/
def hueDeg (rgb : Color) : ℚ := (hsvOf rgb).1 * 360

/-- Model of `get_color_name` (`color_palette_extractor.py`, lines 60-89).
`(hsvOf rgb).2.1` is the saturation `s`, `(hsvOf rgb).2.2` the value `v`, and
`hueDeg rgb` the hue `h` after the `h = h * 360` rescaling. -/
def get_color_name (rgb : Color) : String :=
  if (hsvOf rgb).2.1 < 1/10 then
    if (hsvOf rgb).2.2 > 9/10 then "White"
    else if (hsvOf rgb).2.2 < 1/10 then "Black" else "Gray"
  else if hueDeg rgb < 15 ∨ hueDeg rgb ≥ 345 then "Red"
  else if hueDeg rgb < 45 then "Orange"
  else if hueDeg rgb < 75 then "Yellow"
  else if hueDeg rgb < 150 then "Green"
  else if hueDeg rgb < 210 then "Cyan"
  else if hueDeg rgb < 270 then "Blue"
  else if hueDeg rgb < 330 then "Magenta"
  else "Red"

/-- The ten color names `get_color_name` can produce. -/
def colorNames : List String :=
  ["White", "Black", "Gray", "Red", "Orange", "Yellow", "Green", "Cyan", "Blue",
    "Magenta"]

/-- Claim C4: for every image (given by its list of sampled-resolution RGB
pixels) and requested count `num_colors`, `get_dominant_colors` returns at most
`num_colors` colors, each an RGB triple with every channel in 0-255, in
non-increasing order of sampled-pixel frequency, with ties broken by first
occurrence in the scanned pixel order. -/
theorem claim_C4 (pixels : List Color) (num_colors quality : Nat)
    (hq : 1 ≤ quality) (hpix : ∀ p ∈ pixels, InRange p) :
    (get_dominant_colors pixels num_colors quality).length ≤ num_colors ∧
    (∀ c ∈ get_dominant_colors pixels num_colors quality, InRange c) ∧
    (get_dominant_colors pixels num_colors quality).Pairwise (fun a b =>
      countOf (takeEvery quality pixels) b < countOf (takeEvery quality pixels) a ∨
        (countOf (takeEvery quality pixels) a = countOf (takeEvery quality pixels) b ∧
          firstIdx (takeEvery quality pixels) a <
            firstIdx (takeEvery quality pixels) b)) := by
  refine ⟨?_, ?_, ?_⟩
  · simpa only [get_dominant_colors, List.length_map] using
      (PyCounter.mostCommon_length num_colors (takeEvery quality pixels)).trans
        (le_refl _)
  · intro c hc
    simp only [get_dominant_colors, List.mem_map] at hc
    obtain ⟨p, hp, rfl⟩ := hc
    have hmem := (PyCounter.mostCommon_mem hp).1
    exact hpix _ (takeEvery_subset quality pixels _ hmem)
  · exact PyCounter.mostCommon_keys_pairwise num_colors (takeEvery quality pixels)

/-- Witness for C4 at a concrete input: three pixels, two of one color, asking
for two dominant colors. -/
theorem claim_C4_witness :
    (1 ≤ 1 ∧ ∀ p ∈ [((1, 2, 3) : Color), (4, 5, 6), (1, 2, 3)], InRange p) ∧
    ((get_dominant_colors [((1, 2, 3) : Color), (4, 5, 6), (1, 2, 3)] 2 1).length ≤ 2 ∧
    (∀ c ∈ get_dominant_colors [((1, 2, 3) : Color), (4, 5, 6), (1, 2, 3)] 2 1, InRange c) ∧
    (get_dominant_colors [((1, 2, 3) : Color), (4, 5, 6), (1, 2, 3)] 2 1).Pairwise (fun a b =>
      countOf (takeEvery 1 [((1, 2, 3) : Color), (4, 5, 6), (1, 2, 3)]) b <
          countOf (takeEvery 1 [((1, 2, 3) : Color), (4, 5, 6), (1, 2, 3)]) a ∨
        (countOf (takeEvery 1 [((1, 2, 3) : Color), (4, 5, 6), (1, 2, 3)]) a =
            countOf (takeEvery 1 [((1, 2, 3) : Color), (4, 5, 6), (1, 2, 3)]) b ∧
          firstIdx (takeEvery 1 [((1, 2, 3) : Color), (4, 5, 6), (1, 2, 3)]) a <
            firstIdx (takeEvery 1 [((1, 2, 3) : Color), (4, 5, 6), (1, 2, 3)]) b))) :=
  ⟨⟨by decide, by decide⟩,
    claim_C4 [((1, 2, 3) : Color), (4, 5, 6), (1, 2, 3)] 2 1 (by decide) (by decide)⟩

theorem rgb_to_hsv_fst_bounds (r g b : ℚ) :
    0 ≤ (rgb_to_hsv r g b).1 ∧ (rgb_to_hsv r g b).1 < 1 := by
  simp only [rgb_to_hsv]
  split_ifs <;>
    first
      | exact ⟨Int.fract_nonneg _, Int.fract_lt_one _⟩
      | norm_num

theorem hueDeg_bounds (rgb : Color) : 0 ≤ hueDeg rgb ∧ hueDeg rgb < 360 := by
  obtain ⟨h0, h1⟩ := rgb_to_hsv_fst_bounds ((rgb.1 : ℚ) / 255) ((rgb.2.1 : ℚ) / 255)
    ((rgb.2.2 : ℚ) / 255)
  unfold hueDeg hsvOf
  constructor
  · positivity
  · nlinarith

/-- Claim C5: the color classification is total and deterministic.  Every RGB
triple maps to exactly one of the ten names; when saturation is below 0.1 the
result is White/Black/Gray by the value thresholds, and otherwise the hue
boundaries 15, 45, 75, 150, 210, 270, 330, 345/0 resolve per the half-open
ranges of the code (the hue is always in `[0, 360)` because it is computed
modulo 1 before rescaling, so a wrapped hue of 360 degrees lands at 0 and is
classified Red). -/
theorem claim_C5 (rgb : Color) :
    get_color_name rgb ∈ colorNames ∧
    (0 ≤ hueDeg rgb ∧ hueDeg rgb < 360) ∧
    ((hsvOf rgb).2.1 < 1/10 →
      get_color_name rgb =
        (if (hsvOf rgb).2.2 > 9/10 then "White"
         else if (hsvOf rgb).2.2 < 1/10 then "Black" else "Gray")) ∧
    (¬ (hsvOf rgb).2.1 < 1/10 →
      ((hueDeg rgb < 15 ∨ hueDeg rgb ≥ 345) → get_color_name rgb = "Red") ∧
      (15 ≤ hueDeg rgb → hueDeg rgb < 45 → get_color_name rgb = "Orange") ∧
      (45 ≤ hueDeg rgb → hueDeg rgb < 75 → get_color_name rgb = "Yellow") ∧
      (75 ≤ hueDeg rgb → hueDeg rgb < 150 → get_color_name rgb = "Green") ∧
      (150 ≤ hueDeg rgb → hueDeg rgb < 210 → get_color_name rgb = "Cyan") ∧
      (210 ≤ hueDeg rgb → hueDeg rgb < 270 → get_color_name rgb = "Blue") ∧
      (270 ≤ hueDeg rgb → hueDeg rgb < 330 → get_color_name rgb = "Magenta") ∧
      (330 ≤ hueDeg rgb → hueDeg rgb < 345 → get_color_name rgb = "Red")) := by
  refine ⟨?_, hueDeg_bounds rgb, ?_, ?_⟩
  · simp only [get_color_name, colorNames]
    split_ifs <;> simp
  · intro hs
    simp only [get_color_name, if_pos hs]
  · intro hs
    refine ⟨?_, ?_, ?_, ?_, ?_, ?_, ?_, ?_⟩
    · intro hred
      simp only [get_color_name, if_neg hs, if_pos hred]
    · intro hlo hhi
      have hred : ¬ (hueDeg rgb < 15 ∨ hueDeg rgb ≥ 345) := by
        push_neg
        exact ⟨hlo, by linarith⟩
      simp only [get_color_name, if_neg hs, if_neg hred, if_pos hhi]
    · intro hlo hhi
      have hred : ¬ (hueDeg rgb < 15 ∨ hueDeg rgb ≥ 345) := by
        push_neg
        exact ⟨by linarith, by linarith⟩
      simp only [get_color_name, if_neg hs, if_neg hred,
        if_neg (by linarith : ¬ hueDeg rgb < 45), if_pos hhi]
    · intro hlo hhi
      have hred : ¬ (hueDeg rgb < 15 ∨ hueDeg rgb ≥ 345) := by
        push_neg
        exact ⟨by linarith, by linarith⟩
      simp only [get_color_name, if_neg hs, if_neg hred,
        if_neg (by linarith : ¬ hueDeg rgb < 45),
        if_neg (by linarith : ¬ hueDeg rgb < 75), if_pos hhi]
    · intro hlo hhi
      have hred : ¬ (hueDeg rgb < 15 ∨ hueDeg rgb ≥ 345) := by
        push_neg
        exact ⟨by linarith, by linarith⟩
      simp only [get_color_name, if_neg hs, if_neg hred,
        if_neg (by linarith : ¬ hueDeg rgb < 45),
        if_neg (by linarith : ¬ hueDeg rgb < 75),
        if_neg (by linarith : ¬ hueDeg rgb < 150), if_pos hhi]
    · intro hlo hhi
      have hred : ¬ (hueDeg rgb < 15 ∨ hueDeg rgb ≥ 345) := by
        push_neg
        exact ⟨by linarith, by linarith⟩
      simp only [get_color_name, if_neg hs, if_neg hred,
        if_neg (by linarith : ¬ hueDeg rgb < 45),
        if_neg (by linarith : ¬ hueDeg rgb < 75),
        if_neg (by linarith : ¬ hueDeg rgb < 150),
        if_neg (by linarith : ¬ hueDeg rgb < 210), if_pos hhi]
    · intro hlo hhi
      have hred : ¬ (hueDeg rgb < 15 ∨ hueDeg rgb ≥ 345) := by
        push_neg
        exact ⟨by linarith, by linarith⟩
      simp only [get_color_name, if_neg hs, if_neg hred,
        if_neg (by linarith : ¬ hueDeg rgb < 45),
        if_neg (by linarith : ¬ hueDeg rgb < 75),
        if_neg (by linarith : ¬ hueDeg rgb < 150),
        if_neg (by linarith : ¬ hueDeg rgb < 210),
        if_neg (by linarith : ¬ hueDeg rgb < 270), if_pos hhi]
    · intro hlo hhi
      have hred : ¬ (hueDeg rgb < 15 ∨ hueDeg rgb ≥ 345) := by
        push_neg
        exact ⟨by linarith, by linarith⟩
      simp only [get_color_name, if_neg hs, if_neg hred,
        if_neg (by linarith : ¬ hueDeg rgb < 45),
        if_neg (by linarith : ¬ hueDeg rgb < 75),
        if_neg (by linarith : ¬ hueDeg rgb < 150),
        if_neg (by linarith : ¬ hueDeg rgb < 210),
        if_neg (by linarith : ¬ hueDeg rgb < 270),
        if_neg (by linarith : ¬ hueDeg rgb < 330)]

/-- Witness for C5 at the boundary hue 15: the color (240, 60, 0) has
saturation 1 and hue exactly 15 degrees, so the half-open range `[15, 45)`
classifies it Orange; and a gray input (128, 128, 128) takes the low-saturation
branch. -/
theorem claim_C5_witness :
    (¬ (hsvOf (240, 60, 0)).2.1 < 1/10 ∧ 15 ≤ hueDeg (240, 60, 0) ∧
      hueDeg (240, 60, 0) < 45 ∧ get_color_name (240, 60, 0) = "Orange") ∧
    ((hsvOf (128, 128, 128)).2.1 < 1/10 ∧ get_color_name (128, 128, 128) = "Gray") := by
  have hsat : ¬ (hsvOf ((240 : Nat), (60 : Nat), (0 : Nat))).2.1 < 1/10 := by
    norm_num [hsvOf, rgb_to_hsv, pymod1, max_def, min_def]
  have hlo : 15 ≤ hueDeg ((240 : Nat), (60 : Nat), (0 : Nat)) := by
    norm_num [hueDeg, hsvOf, rgb_to_hsv, pymod1, max_def, min_def]
  have hhi : hueDeg ((240 : Nat), (60 : Nat), (0 : Nat)) < 45 := by
    norm_num [hueDeg, hsvOf, rgb_to_hsv, pymod1, max_def, min_def]
  have hgraysat : (hsvOf ((128 : Nat), (128 : Nat), (128 : Nat))).2.1 < 1/10 := by
    norm_num [hsvOf, rgb_to_hsv, pymod1, max_def, min_def]
  have hgrayval : ¬ ((hsvOf ((128 : Nat), (128 : Nat), (128 : Nat))).2.2 > 9/10) ∧
      ¬ ((hsvOf ((128 : Nat), (128 : Nat), (128 : Nat))).2.2 < 1/10) := by
    norm_num [hsvOf, rgb_to_hsv, pymod1, max_def, min_def]
  refine ⟨⟨hsat, hlo, hhi, ((claim_C5 (240, 60, 0)).2.2.2 hsat).2.1 hlo hhi⟩,
    ⟨hgraysat, ?_⟩⟩
  rw [((claim_C5 (128, 128, 128)).2.2.1 hgraysat), if_neg hgrayval.1, if_neg hgrayval.2]

end Palette

namespace GitAnalyzer

open PyCounter

/-- Model of Python `str.split(sep)` for a one-character separator, on strings
as `List Char`: no collapsing of empty fields, and the empty string splits to
one empty field. -/
def splitOnC (sep : Char) : List Char → List (List Char)
  | [] => [[]]
  | c :: cs =>
    if c = sep then [] :: splitOnC sep cs
    else
      match splitOnC sep cs with
      | [] => [[c]]
      | h :: t => (c :: h) :: t

theorem splitOnC_ne_nil (sep : Char) (l : List Char) : splitOnC sep l ≠ [] := by
  cases l with
  | nil => simp [splitOnC]
  | cons c cs =>
    simp only [splitOnC]
    split_ifs
    · simp
    · cases splitOnC sep cs <;> simp

theorem length_splitOnC (sep : Char) (l : List Char) :
    (splitOnC sep l).length = l.count sep + 1 := by
  induction l with
  | nil => simp [splitOnC]
  | cons c cs ih =>
    simp only [splitOnC]
    split_ifs with hc
    · subst hc
      simp [List.count_cons, ih]
    · cases hsplit : splitOnC sep cs with
      | nil => exact absurd hsplit (splitOnC_ne_nil sep cs)
      | cons h t =>
        rw [hsplit] at ih
        simp only [List.length_cons] at ih
        simp [List.count_cons, Ne.symm hc, ih, hc]

theorem splitOnC_of_not_mem {sep : Char} {l : List Char} (h : sep ∉ l) :
    splitOnC sep l = [l] := by
  induction l with
  | nil => simp [splitOnC]
  | cons c cs ih =>
    simp only [List.mem_cons, not_or] at h
    simp only [splitOnC, if_neg (Ne.symm h.1), ih h.2]

theorem splitOnC_append_cons {sep : Char} {a : List Char} (b : List Char)
    (ha : sep ∉ a) : splitOnC sep (a ++ sep :: b) = a :: splitOnC sep b := by
  induction a with
  | nil => simp [splitOnC]
  | cons c cs ih =>
    simp only [List.mem_cons, not_or] at ha
    simp only [List.cons_append, splitOnC, if_neg (Ne.symm ha.1), List.append_eq,
      ih ha.2]

/-- A parsed decimal digit string (nonempty, digits only). -/
def digitsToNat? (l : List Char) : Option Nat :=
  if l ≠ [] ∧ l.all (·.isDigit) then
    some (l.foldl (fun n c => 10 * n + (c.toNat - 48)) 0)
  else none

/-- Model of Python `int()` on the numeric fields of `git log --numstat`
output: an optional sign followed by at least one decimal digit.  (Python's
`int()` additionally strips surrounding whitespace and allows underscore
grouping; neither occurs in tab-separated numstat fields.)  `none` models
`int()` raising `ValueError`. -/
def pyInt? : List Char → Option Int
  | '-' :: ds => (digitsToNat? ds).map (fun n => -(n : Int))
  | '+' :: ds => (digitsToNat? ds).map (fun n => (n : Int))
  | ds => (digitsToNat? ds).map (fun n => (n : Int))

/-- One file entry of a commit, as built in `fetch_commits`
(`git_commit_analyzer.py`, lines 93-97). -/
structure FileChange where
  name : List Char
  additions : Int
  deletions : Int
deriving DecidableEq, Repr

/-- A parsed commit, as built in `fetch_commits` (`git_commit_analyzer.py`,
lines 74-82).  The `date` field keeps the raw `%ai` timestamp text of the log
line; `datetime` parsing is modelled by the field accessors `commitHour`,
`commitWeekday` and `commitDateStr` below. -/
structure Commit where
  hash : List Char
  author : List Char
  date : List Char
  message : List Char
  files : List FileChange
  additions : Int
  deletions : Int
deriving DecidableEq, Repr

/-- The numstat additions/deletions field: the placeholder `-` (binary files)
counts as zero, anything else goes through `int()`
(`git_commit_analyzer.py`, lines 89-90). -/
def parseNumstatField (f : List Char) : Option Int :=
  if f = ['-'] then some 0 else pyInt? f

/-- Model of the stat-line branch of the `fetch_commits` loop
(`git_commit_analyzer.py`, lines 85-99): split on tabs, require exactly three
fields, parse the two numeric fields; `none` models the silent skip (either the
field count is wrong or `int()` raised `ValueError`). -/
def parseStatLine (line : List Char) : Option FileChange :=
  match splitOnC '\t' line with
  | [a, d, f] =>
    match parseNumstatField a, parseNumstatField d with
    | some x, some y => some ⟨f, x, y⟩
    | _, _ => none
  | _ => none

/-- The commit-boundary test of the `fetch_commits` loop
(`git_commit_analyzer.py`, line 68): `'|' in line and len(line.split('|')) == 4`. -/
def isCommitLine (line : List Char) : Bool :=
  line.contains '|' && (splitOnC '|' line).length == 4

/-- A line whose `strip()` is falsy (whitespace only), so the stat branch is
not taken (`git_commit_analyzer.py`, line 83). -/
def isBlankLine (line : List Char) : Bool := line.all (·.isWhitespace)

/-- Record a parsed stat line into the current commit: accumulate the totals
and append the file entry (`git_commit_analyzer.py`, lines 91-97). -/
def addStat (c : Commit) (fc : FileChange) : Commit :=
  { c with
    additions := c.additions + fc.additions
    deletions := c.deletions + fc.deletions
    files := c.files ++ [fc] }

/-- A freshly started commit record (`git_commit_analyzer.py`, lines 74-82). -/
def mkCommit (h a d m : List Char) : Commit := ⟨h, a, d, m, [], 0, 0⟩

/-- Flush the current commit, if any, to the finished list
(`git_commit_analyzer.py`, lines 70-71 and 101-102). -/
def pushCur : List Commit → Option Commit → List Commit
  | done, some c => done ++ [c]
  | done, none => done

/-- One iteration of the `fetch_commits` parsing loop over the state
`(commits so far, current commit)` (`git_commit_analyzer.py`, lines 67-99). -/
def stepLine (acc : List Commit × Option Commit) (line : List Char) :
    List Commit × Option Commit :=
  if isCommitLine line then
    match splitOnC '|' line with
    | [h, a, d, m] => (pushCur acc.1 acc.2, some (mkCommit h a d m))
    | _ => acc
  else
    match acc.2 with
    | some c =>
      if isBlankLine line then acc
      else
        match parseStatLine line with
        | some fc => (acc.1, some (addStat c fc))
        | none => acc
    | none => acc

/-- The whole `fetch_commits` parsing loop over the already-split output lines,
including the final flush (`git_commit_analyzer.py`, lines 66-102). -/
def parseLog (lines : List (List Char)) : List Commit :=
  let st := lines.foldl stepLine ([], none)
  pushCur st.1 st.2

/-- `fetch_commits` from the raw stdout of the git subprocess: split on
newlines and run the parsing loop (`git_commit_analyzer.py`, line 67). -/
def fetchCommits (gitOutput : List Char) : List Commit :=
  parseLog (splitOnC '\n' gitOutput)

/-- The fixed conventional-commit type tags, in the alternation order of the
regex `^(feat|fix|docs|style|refactor|test|chore)(\(.+\))?:`
(`git_commit_analyzer.py`, line 139). -/
def typeTags : List (List Char) :=
  [String.toList "feat", String.toList "fix", String.toList "docs",
    String.toList "style", String.toList "refactor", String.toList "test",
    String.toList "chore"]

/-- Scan for a later occurrence of the two characters `):` preceded only by
non-newline scope characters: the backtracking behaviour of `\(.+\))?:` after
at least one scope character has been consumed. -/
def scanClose : List Char → Bool
  | [] => false
  | c :: cs =>
    if c = ')' ∧ cs.head? = some ':' then true
    else if c = '\n' then false
    else scanClose cs

/-- Does the remainder of the message after the type tag match `(\(.+\))?:`?
Either a colon immediately (empty optional group), or an opening parenthesis,
at least one non-newline scope character, then `):` (with `.` not matching a
newline, as in Python's `re` without `DOTALL`). -/
def scopeRest : List Char → Bool
  | [] => false
  | c :: rest =>
    if c = ':' then true
    else if c = '(' then
      match rest with
      | [] => false
      | c0 :: cs => if c0 = '\n' then false else scanClose cs
    else false

/-- Model of `re.match(r'^(feat|fix|docs|style|refactor|test|chore)(\(.+\))?:', msg)`
(`git_commit_analyzer.py`, line 139), returning `match.group(1)` (the type tag)
on success.  No tag is a prefix of another, so at most one alternative can
apply to a given message. -/
def matchConventional (msg : List Char) : Option (List Char) :=
  typeTags.findSome? (fun tag =>
    if tag.isPrefixOf msg && scopeRest (msg.drop tag.length) then some tag
    else none)

/-- The `patterns` dict of `analyze_commit_messages` with its seven fixed keys
(`git_commit_analyzer.py`, lines 129-132). -/
structure CommitTypes where
  feat : Nat
  fix : Nat
  docs : Nat
  style : Nat
  refactor : Nat
  test : Nat
  chore : Nat
deriving DecidableEq, Repr

/-- All seven type counters at zero. -/
def zeroTypes : CommitTypes := ⟨0, 0, 0, 0, 0, 0, 0⟩

/-- `patterns[commit_type] += 1` for a matched tag
(`git_commit_analyzer.py`, line 143). -/
def incrementType (t : CommitTypes) (tag : List Char) : CommitTypes :=
  if tag = String.toList "feat" then { t with feat := t.feat + 1 }
  else if tag = String.toList "fix" then { t with fix := t.fix + 1 }
  else if tag = String.toList "docs" then { t with docs := t.docs + 1 }
  else if tag = String.toList "style" then { t with style := t.style + 1 }
  else if tag = String.toList "refactor" then { t with refactor := t.refactor + 1 }
  else if tag = String.toList "test" then { t with test := t.test + 1 }
  else if tag = String.toList "chore" then { t with chore := t.chore + 1 }
  else t

/-- The dictionary returned by `analyze_commit_messages`
(`git_commit_analyzer.py`, lines 145-151). -/
structure MessageStats where
  total_commits : Nat
  avg_message_length : ℚ
  conventional_commits : Nat
  conventional_percentage : ℚ
  commit_types : CommitTypes
deriving DecidableEq, Repr

/-- Model of `analyze_commit_messages` (`git_commit_analyzer.py`,
lines 125-151). -/
def analyze_commit_messages (commits : List Commit) : MessageStats :=
  let message_lengths := commits.map (fun c => c.message.length)
  let conventional := commits.countP (fun c => (matchConventional c.message).isSome)
  let types := commits.foldl (fun acc c =>
    match matchConventional c.message with
    | some tag => incrementType acc tag
    | none => acc) zeroTypes
  { total_commits := commits.length
    avg_message_length :=
      if message_lengths = [] then 0
      else (message_lengths.sum : ℚ) / (message_lengths.length : ℚ)
    conventional_commits := conventional
    conventional_percentage :=
      if commits = [] then 0
      else (conventional : ℚ) / (commits.length : ℚ) * 100
    commit_types := types }

/-- The final path component, as used by `Path(filename).suffix` on the
slash-separated paths that `git` emits (no trailing slashes or drive letters). -/
def pathName (p : List Char) : List Char :=
  match (splitOnC '/' p).reverse with
  | [] => []
  | x :: _ => x

/-- Model of `pathlib.Path(filename).suffix`: the final component's last dot
and what follows it, unless the dot is missing, leading, or trailing
(`git_commit_analyzer.py`, line 169). -/
def pathSuffix (p : List Char) : List Char :=
  let n := pathName p
  let r := n.reverse
  let pre := r.takeWhile (fun c => c != '.')
  if pre.length = r.length then []
  else if pre.length = 0 then []
  else if pre.length = r.length - 1 then []
  else '.' :: pre.reverse

/-- The dictionary returned by `analyze_file_changes`
(`git_commit_analyzer.py`, lines 173-181). -/
structure FileStats where
  total_additions : Int
  total_deletions : Int
  net_lines : Int
  avg_additions_per_commit : ℚ
  avg_deletions_per_commit : ℚ
  file_extensions : List (List Char × Nat)
  most_changed_files : List (List Char × Nat)
deriving DecidableEq, Repr

/-- All file names of all commits, in the iteration order of the
`analyze_file_changes` loops (`git_commit_analyzer.py`, lines 160-166). -/
def allFileNames (commits : List Commit) : List (List Char) :=
  (commits.map (fun c => c.files.map (fun f => f.name))).flatten

/-- The extension occurrences fed to the `file_extensions` counter: one entry
per file change whose suffix is nonempty — `if ext:` skips files without an
extension (`git_commit_analyzer.py`, lines 169-171). -/
def extKeys (commits : List Commit) : List (List Char) :=
  (allFileNames commits).filterMap (fun f =>
    let e := pathSuffix f
    if e = [] then none else some e)

/-- Model of `analyze_file_changes` (`git_commit_analyzer.py`, lines 153-181). -/
def analyze_file_changes (commits : List Commit) : FileStats :=
  let ta := (commits.map (fun c => c.additions)).sum
  let td := (commits.map (fun c => c.deletions)).sum
  { total_additions := ta
    total_deletions := td
    net_lines := ta - td
    avg_additions_per_commit :=
      if commits = [] then 0 else (ta : ℚ) / (commits.length : ℚ)
    avg_deletions_per_commit :=
      if commits = [] then 0 else (td : ℚ) / (commits.length : ℚ)
    file_extensions := mostCommon 10 (extKeys commits)
    most_changed_files := mostCommon 10 (allFileNames commits) }

/-- The render-time label for an extension key:
`ext or '(no extension)'` (`git_commit_analyzer.py`, line 283). -/
def renderExtLabel (e : List Char) : List Char :=
  if e = [] then String.toList "(no extension)" else e

/-- One author's entry of the `author_stats` defaultdict
(`git_commit_analyzer.py`, line 186). -/
structure AuthorDetail where
  commits : Nat
  additions : Int
  deletions : Int
deriving DecidableEq, Repr

/-- The dictionary returned by `analyze_authors`
(`git_commit_analyzer.py`, lines 195-199). -/
structure AuthorStats where
  total_authors : Nat
  author_commits : List (List Char × Nat)
  author_stats : List (List Char × AuthorDetail)
deriving DecidableEq, Repr

/-- Model of `analyze_authors` (`git_commit_analyzer.py`, lines 183-199): the
`author_stats` defaultdict accumulates in commit order, so its keys are in
first-seen order with fully accumulated totals. -/
def analyze_authors (commits : List Commit) : AuthorStats :=
  let names := commits.map (fun c => c.author)
  { total_authors := (firstSeen names).length
    author_commits := mostCommonAll names
    author_stats := (firstSeen names).map (fun a =>
      (a,
        { commits := countOf names a
          additions :=
            ((commits.filter (fun c => c.author == a)).map (fun c => c.additions)).sum
          deletions :=
            ((commits.filter (fun c => c.author == a)).map (fun c => c.deletions)).sum })) }

/-- The `dict` of counts keyed in first-seen order, as built by a
`defaultdict(int)` loop. -/
def countsInOrder {K : Type} [DecidableEq K] (l : List K) : List (K × Nat) :=
  (firstSeen l).map (fun k => (k, countOf l k))

/-- The hour field of the `%ai` timestamp `YYYY-MM-DD HH:MM:SS +zzzz`
(characters 11-12), modelling `commit['date'].hour` for the well-formed
timestamps git emits (a malformed timestamp would already have crashed
`datetime.fromisoformat` during `fetch_commits`, which no checked claim
exercises). -/
def commitHour (c : Commit) : Nat := (digitsToNat? ((c.date.drop 11).take 2)).getD 0

/-- The year field of the timestamp. -/
def commitYear (c : Commit) : Nat := (digitsToNat? (c.date.take 4)).getD 0

/-- The month field of the timestamp. -/
def commitMonth (c : Commit) : Nat := (digitsToNat? ((c.date.drop 5).take 2)).getD 0

/-- The day-of-month field of the timestamp. -/
def commitDay (c : Commit) : Nat := (digitsToNat? ((c.date.drop 8).take 2)).getD 0

/-- English weekday names, indexed with 0 = Sunday. -/
def weekdayNames : List (List Char) :=
  [String.toList "Sunday", String.toList "Monday", String.toList "Tuesday",
    String.toList "Wednesday", String.toList "Thursday", String.toList "Friday",
    String.toList "Saturday"]

/-- Sakamoto's day-of-week algorithm on the Gregorian calendar:
0 = Sunday, ..., 6 = Saturday. -/
def dayOfWeekIdx (y m d : Nat) : Nat :=
  let t : List Int := [0, 3, 2, 5, 0, 3, 5, 1, 4, 6, 2, 4]
  let y' : Int := if m < 3 then (y : Int) - 1 else (y : Int)
  ((y' + y' / 4 - y' / 100 + y' / 400 + t.getD (m - 1) 0 + (d : Int)) % 7).toNat

/-- Model of `commit['date'].strftime('%A')`: the full weekday name of the
commit timestamp. -/
def commitWeekday (c : Commit) : List Char :=
  weekdayNames.getD (dayOfWeekIdx (commitYear c) (commitMonth c) (commitDay c)) []

/-- Model of `commit['date'].strftime('%Y-%m-%d')`: for the well-formed `%ai`
timestamps this is the first ten characters of the raw field. -/
def commitDateStr (c : Commit) : List Char := c.date.take 10

/-- The dictionary returned by `analyze_commit_frequency`
(`git_commit_analyzer.py`, lines 119-123). -/
structure FrequencyStats where
  by_hour : List (Nat × Nat)
  by_day : List (List Char × Nat)
  by_date : List (List Char × Nat)
deriving DecidableEq, Repr

/-- Lexicographic order on character lists, as Python compares strings. -/
def lexLe : List Char → List Char → Bool
  | [], _ => true
  | _ :: _, [] => false
  | a :: as, b :: bs => if a < b then true else if a = b then lexLe as bs else false

/-- Model of `analyze_commit_frequency` (`git_commit_analyzer.py`,
lines 104-123): hour/weekday/date frequency maps; `by_hour` and `by_date` are
passed through `sorted(...)` on their keys (keys are distinct), `by_day` keeps
insertion order. -/
def analyze_commit_frequency (commits : List Commit) : FrequencyStats :=
  { by_hour := (countsInOrder (commits.map commitHour)).insertionSort
      (fun a b => a.1 ≤ b.1)
    by_day := countsInOrder (commits.map commitWeekday)
    by_date := (countsInOrder (commits.map commitDateStr)).insertionSort
      (fun a b => lexLe a.1 b.1 = true) }

/-- Round half to even at integer precision, the rounding mode of Python's
built-in `round` (on exact rationals). -/
def roundHalfEven (x : ℚ) : ℤ :=
  let f := ⌊x⌋
  let r := x - (f : ℚ)
  if r < 1/2 then f
  else if 1/2 < r then f + 1
  else if f % 2 = 0 then f else f + 1

/-- Model of Python `round(x, 2)` on exact rationals. -/
def round2 (x : ℚ) : ℚ := (roundHalfEven (x * 100) : ℚ) / 100

/-- Model of `get_productivity_score` (`git_commit_analyzer.py`,
lines 201-215), with `self.days` passed explicitly and `0.3` as the exact
rational 3/10.  For `days = 0` and a nonempty commit set the Python code would
raise `ZeroDivisionError`; rational division by zero yields 0 instead, and
every claim about the score assumes `1 ≤ days`. -/
def get_productivity_score (days : Nat) (commits : List Commit) : ℚ :=
  if commits = [] then 0
  else
    let commit_score := min ((commits.length : ℚ) / (days : ℚ) * 10) 40
    let message_score := (analyze_commit_messages commits).conventional_percentage * (3/10)
    let change_score :=
      min ((analyze_file_changes commits).avg_additions_per_commit / 10) 30
    round2 (commit_score + message_score + change_score)

/-- The aggregate content of the nonempty-case text report
(`git_commit_analyzer.py`, lines 222-296); the fixed formatting text around the
aggregates is not modelled. -/
structure FullReport where
  frequency : FrequencyStats
  messages : MessageStats
  files : FileStats
  authors : AuthorStats
  productivity : ℚ
deriving DecidableEq, Repr

/-- The early-return message of `generate_report` for an empty commit set
(`git_commit_analyzer.py`, line 220). -/
def noCommitsMessage : List Char :=
  String.toList "No commits found in the specified time range."

/-- Model of `generate_report` (`git_commit_analyzer.py`, lines 217-296):
either the literal "no commits found" message (empty commit set) or the full
report built from the five aggregates. -/
def generate_report (days : Nat) (commits : List Commit) :
    Sum (List Char) FullReport :=
  if commits = [] then Sum.inl noCommitsMessage
  else Sum.inr
    { frequency := analyze_commit_frequency commits
      messages := analyze_commit_messages commits
      files := analyze_file_changes commits
      authors := analyze_authors commits
      productivity := get_productivity_score days commits }

/-- The `metadata` block of the JSON export (`git_commit_analyzer.py`,
lines 301-306); repo path and generation timestamp are environment inputs. -/
structure Metadata where
  repo_path : List Char
  analysis_date : List Char
  days_analyzed : Nat
  author_filter : Option (List Char)
deriving DecidableEq, Repr

/-- The document written by `export_json` (`git_commit_analyzer.py`,
lines 300-312): the keys `metadata`, `frequency`, `messages`, `files`,
`authors`, `productivity_score`. -/
structure ExportData where
  metadata : Metadata
  frequency : FrequencyStats
  messages : MessageStats
  files : FileStats
  authors : AuthorStats
  productivity_score : ℚ
deriving DecidableEq, Repr

/-- Model of the data dictionary `export_json` serialises
(`git_commit_analyzer.py`, lines 300-312). -/
def export_json_data (meta : Metadata) (commits : List Commit) : ExportData :=
  { metadata := meta
    frequency := analyze_commit_frequency commits
    messages := analyze_commit_messages commits
    files := analyze_file_changes commits
    authors := analyze_authors commits
    productivity_score := get_productivity_score meta.days_analyzed commits }

/-- Outcome of one `git log` subprocess invocation. -/
inductive GitResult
  | success (stdout : List Char)
  | failure
deriving DecidableEq, Repr

/-- Model of `run_git_command` (`git_commit_analyzer.py`, lines 34-47): the
stdout it returns and whether the `except` handler printed
"Error running git command": on `CalledProcessError` it prints the error and
returns the empty string — it does not re-raise or exit. -/
def run_git_command : GitResult → List Char × Bool
  | .success out => (out, false)
  | .failure => ([], true)

/-- What `main` observably does after argument parsing
(`git_commit_analyzer.py`, lines 363-388). -/
structure RunOutcome where
  exitCode : Nat
  gitErrorPrinted : Bool
  report : Option (Sum (List Char) FullReport)
deriving DecidableEq, Repr

/-- Model of `main` (`git_commit_analyzer.py`, lines 363-388): the only
`sys.exit(1)` is the missing-`.git` check before any retrieval; otherwise the
run fetches commits from the (possibly failed) git invocation, always generates
and prints a report, and the process exits 0. -/
def mainRun (repoHasGitDir : Bool) (days : Nat) (git : GitResult) : RunOutcome :=
  if ¬ repoHasGitDir then { exitCode := 1, gitErrorPrinted := false, report := none }
  else
    let out := run_git_command git
    let commits := fetchCommits out.1
    { exitCode := 0
      gitErrorPrinted := out.2
      report := some (generate_report days commits) }

/-- Checked rational division: `none` models Python raising
`ZeroDivisionError`. -/
def divQ? (a b : ℚ) : Option ℚ := if b = 0 then none else some (a / b)

/-- `analyze_commit_messages` with every division checked: `none` would mean a
`ZeroDivisionError` escapes; the emptiness guards of the code make that
impossible. -/
def analyzeCommitMessagesChecked (commits : List Commit) : Option MessageStats :=
  let message_lengths := commits.map (fun c => c.message.length)
  let conventional := commits.countP (fun c => (matchConventional c.message).isSome)
  let types := commits.foldl (fun acc c =>
    match matchConventional c.message with
    | some tag => incrementType acc tag
    | none => acc) zeroTypes
  match (if message_lengths = [] then some 0
          else divQ? (message_lengths.sum : ℚ) (message_lengths.length : ℚ)),
      (if commits = [] then some 0
        else (divQ? (conventional : ℚ) (commits.length : ℚ)).map (fun q => q * 100)) with
  | some avg, some pct =>
    some
      { total_commits := commits.length
        avg_message_length := avg
        conventional_commits := conventional
        conventional_percentage := pct
        commit_types := types }
  | _, _ => none

/-- `analyze_file_changes` with every division checked. -/
def analyzeFileChangesChecked (commits : List Commit) : Option FileStats :=
  let ta : Int := (commits.map (fun c => c.additions)).sum
  let td : Int := (commits.map (fun c => c.deletions)).sum
  match (if commits = [] then some 0 else divQ? (ta : ℚ) (commits.length : ℚ)),
      (if commits = [] then some 0 else divQ? (td : ℚ) (commits.length : ℚ)) with
  | some avgAdd, some avgDel =>
    some
      { total_additions := ta
        total_deletions := td
        net_lines := ta - td
        avg_additions_per_commit := avgAdd
        avg_deletions_per_commit := avgDel
        file_extensions := mostCommon 10 (extKeys commits)
        most_changed_files := mostCommon 10 (allFileNames commits) }
  | _, _ => none

/-- `get_productivity_score` with every division checked (including the
`len(self.commits) / self.days` division). -/
def getProductivityScoreChecked (days : Nat) (commits : List Commit) : Option ℚ :=
  if commits = [] then some 0
  else
    match divQ? (commits.length : ℚ) ((days : ℚ)), analyzeCommitMessagesChecked commits,
        analyzeFileChangesChecked commits with
    | some q, some ms, some fs =>
      some (round2 (min (q * 10) 40 + ms.conventional_percentage * (3/10) +
        min (fs.avg_additions_per_commit / 10) 30))
    | _, _, _ => none

theorem scanClose_iff (cs : List Char) :
    scanClose cs = true ↔ ∃ a b, cs = a ++ ')' :: ':' :: b ∧ '\n' ∉ a := by
  induction cs with
  | nil =>
    simp only [scanClose, Bool.false_eq_true, false_iff, not_exists]
    rintro a b ⟨h, -⟩
    cases a <;> simp at h
  | cons c cs ih =>
    simp only [scanClose]
    split_ifs with h1 h2
    · obtain ⟨rfl, hh⟩ := h1
      constructor
      · intro _
        cases cs with
        | nil => simp at hh
        | cons d ds =>
          simp only [List.head?_cons, Option.some.injEq] at hh
          subst hh
          exact ⟨[], ds, rfl, by simp⟩
      · intro _
        rfl
    · subst h2
      simp only [Bool.false_eq_true, false_iff, not_exists]
      rintro a b ⟨heq, hnin⟩
      cases a with
      | nil => simp at heq
      | cons a0 as =>
        simp only [List.cons_append, List.cons.injEq] at heq
        exact hnin (heq.1 ▸ List.mem_cons_self a0 as)
    · rw [ih]
      constructor
      · rintro ⟨a, b, rfl, hnin⟩
        refine ⟨c :: a, b, rfl, ?_⟩
        simp only [List.mem_cons, not_or]
        exact ⟨fun h => h2 h.symm, hnin⟩
      · rintro ⟨a, b, heq, hnin⟩
        cases a with
        | nil =>
          simp only [List.nil_append, List.cons.injEq] at heq
          refine absurd ⟨heq.1, ?_⟩ h1
          rw [heq.2]
          rfl
        | cons a0 as =>
          simp only [List.cons_append, List.cons.injEq] at heq
          obtain ⟨rfl, heq2⟩ := heq
          exact ⟨as, b, heq2, fun hm => hnin (List.mem_cons_of_mem _ hm)⟩

theorem scopeRest_iff {rest : List Char} (hnl : '\n' ∉ rest) :
    scopeRest rest = true ↔
      (∃ r, rest = ':' :: r) ∨
        ∃ s t, rest = '(' :: (s ++ ')' :: ':' :: t) ∧ s ≠ [] := by
  cases rest with
  | nil =>
    simp only [scopeRest, Bool.false_eq_true, false_iff, not_or, not_exists]
    exact ⟨fun r h => by simp at h, fun s t h => by simp at h⟩
  | cons c rest =>
    simp only [scopeRest]
    split_ifs with hcolon hparen
    · subst hcolon
      simp only [true_iff]
      exact Or.inl ⟨rest, rfl⟩
    · subst hparen
      cases rest with
      | nil =>
        constructor
        · intro h
          exact absurd h (by simp)
        · rintro (⟨r, h⟩ | ⟨s, t, h, -⟩)
          · exact absurd h (by simp)
          · injection h with h1 h2
            have := congrArg List.length h2
            simp at this
            omega
      | cons c0 cs =>
        have hc0 : ¬ c0 = '\n' := fun h => hnl (by simp [h])
        have hnlcs : '\n' ∉ cs := fun h => hnl (by simp [h])
        change (if c0 = '\n' then false else scanClose cs) = true ↔ _
        rw [if_neg hc0, scanClose_iff]
        constructor
        · rintro ⟨a, b, rfl, hna⟩
          exact Or.inr ⟨c0 :: a, b, by simp, by simp⟩
        · rintro (⟨r, h⟩ | ⟨s, t, heq, hs⟩)
          · simp at h
          · simp only [List.cons.injEq, true_and] at heq
            cases s with
            | nil => exact absurd rfl hs
            | cons s0 ss =>
              simp only [List.cons_append, List.cons.injEq] at heq
              obtain ⟨-, heq2⟩ := heq
              exact ⟨ss, t, heq2, fun hm => hnlcs (heq2 ▸ List.mem_append_left _ hm)⟩
    · constructor
      · intro h
        exact absurd h (by simp)
      · rintro (⟨r, h⟩ | ⟨s, t, h, -⟩)
        · injection h with h1 h2
          exact absurd h1 hcolon
        · injection h with h1 h2
          exact absurd h1 hparen

/-- The spec's description of a conventional commit message: it starts with one
of the type tags, optionally followed by a parenthesized (nonempty) scope,
followed by a colon. -/
def IsConventionalMsg (msg : List Char) : Prop :=
  ∃ tag ∈ typeTags,
    (∃ r, msg = tag ++ ':' :: r) ∨
      ∃ s t, msg = tag ++ '(' :: (s ++ ')' :: ':' :: t) ∧ s ≠ []

theorem matchConventional_isSome_iff {msg : List Char} (hnl : '\n' ∉ msg) :
    (matchConventional msg).isSome = true ↔ IsConventionalMsg msg := by
  rw [matchConventional, Option.isSome_iff_ne_none, Ne, List.findSome?_eq_none_iff]
  push_neg
  constructor
  · rintro ⟨tag, htag, hne⟩
    have hcond : (tag.isPrefixOf msg && scopeRest (msg.drop tag.length)) = true := by
      cases hb : tag.isPrefixOf msg && scopeRest (msg.drop tag.length) with
      | false => simp [hb] at hne
      | true => rfl
    rw [Bool.and_eq_true] at hcond
    obtain ⟨hpre, hscope⟩ := hcond
    obtain ⟨rest, rfl⟩ := List.isPrefixOf_iff_prefix.mp hpre
    rw [List.drop_left] at hscope
    have hnlrest : '\n' ∉ rest := fun hm => hnl (List.mem_append_right _ hm)
    rcases (scopeRest_iff hnlrest).mp hscope with ⟨r, rfl⟩ | ⟨s, t, rfl, hs⟩
    · exact ⟨tag, htag, Or.inl ⟨r, rfl⟩⟩
    · exact ⟨tag, htag, Or.inr ⟨s, t, rfl, hs⟩⟩
  · rintro ⟨tag, htag, hform⟩
    refine ⟨tag, htag, ?_⟩
    have hcond : (tag.isPrefixOf msg && scopeRest (msg.drop tag.length)) = true := by
      rw [Bool.and_eq_true]
      rcases hform with ⟨r, rfl⟩ | ⟨s, t, rfl, hs⟩
      · refine ⟨List.isPrefixOf_iff_prefix.mpr ⟨':' :: r, rfl⟩, ?_⟩
        rw [List.drop_left]
        rfl
      · refine ⟨List.isPrefixOf_iff_prefix.mpr ⟨_, rfl⟩, ?_⟩
        rw [List.drop_left]
        refine (scopeRest_iff fun hm => hnl (List.mem_append_right _ hm)).mpr
          (Or.inr ⟨s, t, rfl, hs⟩)
    rw [if_pos hcond]
    simp

/-- The synthetic commit log of the spec: three commits with messages
"feat: a", "random text", "fix(core): b". -/
def threeMsgCommits : List Commit :=
  [mkCommit (String.toList "h1") (String.toList "alice")
      (String.toList "2024-01-15 10:00:00 +0000") (String.toList "feat: a"),
    mkCommit (String.toList "h2") (String.toList "alice")
      (String.toList "2024-01-16 11:00:00 +0000") (String.toList "random text"),
    mkCommit (String.toList "h3") (String.toList "alice")
      (String.toList "2024-01-17 12:00:00 +0000") (String.toList "fix(core): b")]

/-- Claim C6: a commit message is counted as conventional iff it starts with
one of the seven type tags, optionally followed by a parenthesized scope,
followed by a colon (for single-line subjects, which contain no newline); and
on the three messages "feat: a" / "random text" / "fix(core): b" the
conventional count is 2, the conventional percentage is 200/3 (whose rounding
to two decimals is 66.67), and the per-type counts are feat: 1, fix: 1, all
other types 0. -/
theorem claim_C6 :
    (∀ msg : List Char, '\n' ∉ msg →
      ((matchConventional msg).isSome = true ↔ IsConventionalMsg msg)) ∧
    (analyze_commit_messages threeMsgCommits).conventional_commits = 2 ∧
    (analyze_commit_messages threeMsgCommits).conventional_percentage = 200 / 3 ∧
    round2 ((analyze_commit_messages threeMsgCommits).conventional_percentage) =
      6667 / 100 ∧
    (analyze_commit_messages threeMsgCommits).commit_types = ⟨1, 1, 0, 0, 0, 0, 0⟩ := by
  have hpct :
      (analyze_commit_messages threeMsgCommits).conventional_percentage = 200 / 3 := by
    simp only [analyze_commit_messages]
    rw [if_neg (by decide)]
    rw [show threeMsgCommits.countP
        (fun c => (matchConventional c.message).isSome) = 2 from by decide]
    norm_num [threeMsgCommits]
  refine ⟨fun msg hnl => matchConventional_isSome_iff hnl, by decide, hpct, ?_,
    by decide⟩
  rw [hpct, round2, roundHalfEven]
  norm_num

/-- Witness for C6 at the message "feat: a": it has no newline, the matcher
accepts it, and the spec-side description holds of it. -/
theorem claim_C6_witness :
    ('\n' ∉ String.toList "feat: a") ∧ IsConventionalMsg (String.toList "feat: a") :=
  ⟨by decide, (claim_C6.1 (String.toList "feat: a") (by decide)).mp (by decide)⟩

/-- A commit-metadata line in the `--pretty=format:%H|%an|%ai|%s` layout. -/
def logLine (h a d m : List Char) : List Char :=
  h ++ '|' :: (a ++ '|' :: (d ++ '|' :: m))

/-- Claim C10: a log line is recognized as a commit-metadata line iff splitting
it on `|` yields exactly four fields; hence a commit whose subject contains a
`|` is not detected as a commit boundary — its metadata line (having no tabs)
is skipped as a malformed stat line, and its file-stat lines are attributed to
the previously seen commit, or dropped when there is none. -/
theorem claim_C10 :
    (∀ line : List Char,
      isCommitLine line = true ↔ (splitOnC '|' line).length = 4) ∧
    (∀ h a d s1 s2 : List Char, '|' ∉ h → '|' ∉ a → '|' ∉ d →
      isCommitLine (logLine h a d (s1 ++ '|' :: s2)) = false) ∧
    parseLog
      [logLine (String.toList "h1") (String.toList "alice")
          (String.toList "2024-01-15 10:30:00 +0000") (String.toList "feat: x"),
        String.toList "1\t2\ta.py",
        logLine (String.toList "h2") (String.toList "bob")
          (String.toList "2024-01-16 11:00:00 +0000") (String.toList "fix: a|b"),
        String.toList "3\t4\tb.py"] =
      [{ hash := String.toList "h1", author := String.toList "alice",
         date := String.toList "2024-01-15 10:30:00 +0000",
         message := String.toList "feat: x",
         files := [⟨String.toList "a.py", 1, 2⟩, ⟨String.toList "b.py", 3, 4⟩],
         additions := 4, deletions := 6 }] ∧
    parseLog
      [logLine (String.toList "h2") (String.toList "bob")
          (String.toList "2024-01-16 11:00:00 +0000") (String.toList "fix: a|b"),
        String.toList "3\t4\tb.py"] = [] := by
  refine ⟨?_, ?_, by decide, by decide⟩
  · intro line
    rw [isCommitLine, Bool.and_eq_true, beq_iff_eq]
    constructor
    · rintro ⟨-, hlen⟩
      exact hlen
    · intro hlen
      refine ⟨List.elem_iff.mpr ?_, hlen⟩
      have hcount : line.count '|' = 3 := by
        have := length_splitOnC '|' line
        omega
      exact List.count_pos_iff.mp (by omega)
  · intro h a d s1 s2 hh ha hd
    have hcount : (logLine h a d (s1 ++ '|' :: s2)).count '|' =
        3 + s1.count '|' + 1 + s2.count '|' := by
      simp only [logLine, List.count_append, List.count_cons]
      rw [List.count_eq_zero.mpr hh, List.count_eq_zero.mpr ha,
        List.count_eq_zero.mpr hd]
      simp
      ring
    have hlen : ((splitOnC '|' (logLine h a d (s1 ++ '|' :: s2))).length ≠ 4) := by
      rw [length_splitOnC, hcount]
      omega
    rw [isCommitLine]
    rw [Bool.and_eq_false_iff]
    exact Or.inr (by rwa [beq_eq_false_iff_ne])

/-- Witness for C10: a concrete subject containing a pipe is not recognized as
a commit boundary. -/
theorem claim_C10_witness :
    ('|' ∉ String.toList "h2" ∧ '|' ∉ String.toList "bob" ∧
      '|' ∉ String.toList "2024-01-16 11:00:00 +0000") ∧
    isCommitLine (logLine (String.toList "h2") (String.toList "bob")
      (String.toList "2024-01-16 11:00:00 +0000")
      (String.toList "fix: a" ++ '|' :: String.toList "b")) = false :=
  ⟨⟨by decide, by decide, by decide⟩,
    claim_C10.2.1 _ _ _ _ _ (by decide) (by decide) (by decide)⟩

/-- Claim C7: a stat line whose additions or deletions field is the
placeholder `-` contributes 0 to both totals while the file is still recorded
in the commit's file list; any other stat line whose numeric fields fail to
parse is skipped silently, leaving the parsing state unchanged. -/
theorem claim_C7 :
    (∀ name : List Char, '\t' ∉ name →
      parseStatLine ('-' :: '\t' :: '-' :: '\t' :: name) = some ⟨name, 0, 0⟩) ∧
    (∀ (dstr name : List Char) (k : Int), '\t' ∉ dstr → '\t' ∉ name →
      pyInt? dstr = some k →
      parseStatLine ('-' :: '\t' :: (dstr ++ '\t' :: name)) = some ⟨name, 0, k⟩) ∧
    (∀ (c : Commit) (name : List Char),
      (addStat c ⟨name, 0, 0⟩).additions = c.additions ∧
      (addStat c ⟨name, 0, 0⟩).deletions = c.deletions ∧
      (addStat c ⟨name, 0, 0⟩).files = c.files ++ [⟨name, 0, 0⟩]) ∧
    (∀ (done : List Commit) (c : Commit) (line : List Char) (fc : FileChange),
      isCommitLine line = false → isBlankLine line = false →
      parseStatLine line = some fc →
      stepLine (done, some c) line = (done, some (addStat c fc))) ∧
    (∀ (done : List Commit) (c : Commit) (line : List Char),
      isCommitLine line = false → isBlankLine line = false →
      parseStatLine line = none →
      stepLine (done, some c) line = (done, some c)) := by
  refine ⟨?_, ?_, ?_, ?_, ?_⟩
  · intro name hname
    have hsplit : splitOnC '\t' ('-' :: '\t' :: '-' :: '\t' :: name) =
        [['-'], ['-'], name] := by
      rw [show ('-' :: '\t' :: '-' :: '\t' :: name) =
        ['-'] ++ '\t' :: (['-'] ++ '\t' :: name) from rfl]
      rw [splitOnC_append_cons _ (by decide), splitOnC_append_cons _ (by decide),
        splitOnC_of_not_mem hname]
    simp only [parseStatLine]
    rw [hsplit]
    rfl
  · intro dstr name k hdstr hname hk
    have hsplit : splitOnC '\t' ('-' :: '\t' :: (dstr ++ '\t' :: name)) =
        [['-'], dstr, name] := by
      rw [show ('-' :: '\t' :: (dstr ++ '\t' :: name)) =
        ['-'] ++ '\t' :: (dstr ++ '\t' :: name) from rfl]
      rw [splitOnC_append_cons _ (by decide), splitOnC_append_cons _ hdstr,
        splitOnC_of_not_mem hname]
    have hdne : dstr ≠ ['-'] := by
      rintro rfl
      simp [pyInt?, digitsToNat?] at hk
    simp only [parseStatLine]
    rw [hsplit]
    simp only [parseNumstatField, if_neg hdne, hk]
    rfl
  · intro c name
    refine ⟨?_, ?_, rfl⟩ <;> simp [addStat]
  · intro done c line fc hcl hbl hps
    simp [stepLine, hcl, hbl, hps]
  · intro done c line hcl hbl hps
    simp [stepLine, hcl, hbl, hps]

/-- Witness for C7 at a concrete binary-file stat line and a concrete malformed
stat line. -/
theorem claim_C7_witness :
    ('\t' ∉ String.toList "logo.png" ∧
      parseStatLine ('-' :: '\t' :: '-' :: '\t' :: String.toList "logo.png") =
        some ⟨String.toList "logo.png", 0, 0⟩) ∧
    (isCommitLine (String.toList "garbage line") = false ∧
      isBlankLine (String.toList "garbage line") = false ∧
      parseStatLine (String.toList "garbage line") = none ∧
      stepLine ([], some (mkCommit [] [] [] [])) (String.toList "garbage line") =
        ([], some (mkCommit [] [] [] []))) :=
  ⟨⟨by decide, claim_C7.1 (String.toList "logo.png") (by decide)⟩,
    ⟨by decide, by decide, by decide,
      claim_C7.2.2.2.2 [] (mkCommit [] [] [] []) (String.toList "garbage line")
        (by decide) (by decide) (by decide)⟩⟩

/-- Counterexample to claim C1: with a valid repository and a failing
`git log` invocation, the run prints the git error but exits with code 0 and
still produces (and prints) a report — the "no commits found" report — rather
than terminating with a non-zero exit and no report. -/
theorem claim_C1_counterexample :
    (mainRun true 30 GitResult.failure).gitErrorPrinted = true ∧
    (mainRun true 30 GitResult.failure).exitCode = 0 ∧
    (mainRun true 30 GitResult.failure).report = some (Sum.inl noCommitsMessage) :=
  ⟨rfl, rfl, rfl⟩

/-- Claim C1 as amended: a failed git invocation prints an error message and is
treated as empty log output; the run then continues, produces the "no commits
found" report, and exits with code 0.  Only the missing-repository check in
`main` terminates with exit code 1 (before any retrieval, with no report). -/
theorem claim_C1_amended (days : Nat) (git : GitResult) :
    mainRun false days git = ⟨1, false, none⟩ ∧
    mainRun true days GitResult.failure =
      ⟨0, true, some (Sum.inl noCommitsMessage)⟩ :=
  ⟨rfl, rfl⟩

/-- Claim C3: on an empty commit set, report generation returns the
"no commits found" message, the aggregate computations run all their divisions
on the guarded branches (the division-checked variants return `some`, i.e. no
`ZeroDivisionError` is raised) with averages and percentages reported as 0, and
the productivity score is 0. -/
theorem claim_C3 :
    (∀ days : Nat, generate_report days [] = Sum.inl noCommitsMessage) ∧
    analyzeCommitMessagesChecked [] = some ⟨0, 0, 0, 0, zeroTypes⟩ ∧
    analyze_commit_messages [] = ⟨0, 0, 0, 0, zeroTypes⟩ ∧
    analyzeFileChangesChecked [] = some ⟨0, 0, 0, 0, 0, [], []⟩ ∧
    analyze_file_changes [] = ⟨0, 0, 0, 0, 0, [], []⟩ ∧
    analyze_authors [] = ⟨0, [], []⟩ ∧
    (∀ days : Nat, getProductivityScoreChecked days [] = some 0) ∧
    (∀ days : Nat, get_productivity_score days [] = 0) :=
  ⟨fun _ => rfl, rfl, rfl, rfl, rfl, rfl, fun _ => rfl, fun _ => rfl⟩

/-- Claim C9: the JSON export on an empty commit set succeeds and always
contains the keys `metadata`, `frequency`, `messages`, `files`, `authors`,
`productivity_score`; for zero commits the frequency maps are empty,
`total_commits` is 0, every average and percentage is 0, and the productivity
score is 0 — there is no short-circuit to the "no commits found" message. -/
theorem claim_C9 (meta : Metadata) :
    export_json_data meta [] =
      { metadata := meta
        frequency := ⟨[], [], []⟩
        messages := ⟨0, 0, 0, 0, zeroTypes⟩
        files := ⟨0, 0, 0, 0, 0, [], []⟩
        authors := ⟨0, [], []⟩
        productivity_score := 0 } :=
  rfl

theorem roundHalfEven_le {x : ℚ} {N : ℤ} (h0 : 0 ≤ x) (hN : x ≤ (N : ℚ)) :
    0 ≤ roundHalfEven x ∧ roundHalfEven x ≤ N := by
  have hf0 : 0 ≤ ⌊x⌋ := Int.floor_nonneg.mpr h0
  have hfN : ⌊x⌋ ≤ N := by
    have h := Int.floor_le_floor hN
    simpa using h
  have hsucc : 1 / 2 ≤ x - (⌊x⌋ : ℚ) → ⌊x⌋ + 1 ≤ N := by
    intro hr
    have hlt : (⌊x⌋ : ℚ) < (N : ℚ) := by linarith
    exact Int.add_one_le_iff.mpr (by exact_mod_cast hlt)
  simp only [roundHalfEven]
  split_ifs with h1 h2 h3
  · exact ⟨hf0, hfN⟩
  · exact ⟨by omega, hsucc (by linarith)⟩
  · exact ⟨hf0, hfN⟩
  · exact ⟨by omega, hsucc (by linarith)⟩

theorem round2_bounds {x : ℚ} (h0 : 0 ≤ x) (h100 : x ≤ 100) :
    0 ≤ round2 x ∧ round2 x ≤ 100 := by
  have h1 : 0 ≤ x * 100 := by positivity
  have h2 : x * 100 ≤ ((10000 : ℤ) : ℚ) := by push_cast; linarith
  obtain ⟨hl, hr⟩ := roundHalfEven_le h1 h2
  constructor
  · exact div_nonneg (by exact_mod_cast hl) (by norm_num)
  · rw [round2, div_le_iff₀ (by norm_num : (0 : ℚ) < 100)]
    have hcast : ((roundHalfEven (x * 100) : ℤ) : ℚ) ≤ 10000 := by exact_mod_cast hr
    linarith

/-- Claim C2: for every commit set the productivity score equals
`round(min(commits/days*10, 40) + conventional_percentage*0.3 +
min(avg_additions_per_commit/10, 30), 2)` (and 0 for the empty set), and lies
in `[0, 100]`.  The hypotheses record the program's operating conditions: the
`--days` argument is positive (for `days = 0` the Python code raises
`ZeroDivisionError` on a nonempty commit set) and the parsed per-commit
addition totals are nonnegative, as git numstat output guarantees. -/
theorem claim_C2 (days : Nat) (commits : List Commit) (hdays : 1 ≤ days)
    (hadd : ∀ c ∈ commits, 0 ≤ c.additions) :
    get_productivity_score days commits =
      (if commits = [] then 0
        else round2 (min ((commits.length : ℚ) / (days : ℚ) * 10) 40 +
          (analyze_commit_messages commits).conventional_percentage * (3 / 10) +
          min ((analyze_file_changes commits).avg_additions_per_commit / 10) 30)) ∧
    0 ≤ get_productivity_score days commits ∧
    get_productivity_score days commits ≤ 100 ∧
    (commits = [] → get_productivity_score days commits = 0) := by
  by_cases hc : commits = []
  · subst hc
    refine ⟨rfl, le_refl 0, ?_, fun _ => rfl⟩
    rw [show get_productivity_score days [] = (0 : ℚ) from rfl]
    norm_num
  · have hn : 0 < commits.length := List.length_pos.mpr hc
    have hnQ : (0 : ℚ) < (commits.length : ℚ) := by exact_mod_cast hn
    have hpct_def : (analyze_commit_messages commits).conventional_percentage =
        ((commits.countP (fun c => (matchConventional c.message).isSome) : ℚ) /
          (commits.length : ℚ)) * 100 := by
      simp [analyze_commit_messages, hc]
    have hpct0 : 0 ≤ (analyze_commit_messages commits).conventional_percentage := by
      rw [hpct_def]
      positivity
    have hpct100 : (analyze_commit_messages commits).conventional_percentage ≤ 100 := by
      rw [hpct_def]
      have hcle : ((commits.countP (fun c => (matchConventional c.message).isSome) : ℚ)) ≤
          (commits.length : ℚ) := by
        exact_mod_cast List.countP_le_length _
      have hdiv : (commits.countP (fun c => (matchConventional c.message).isSome) : ℚ) /
          (commits.length : ℚ) ≤ 1 := (div_le_one hnQ).mpr hcle
      linarith
    have havg_def : (analyze_file_changes commits).avg_additions_per_commit =
        ((((commits.map (fun c => c.additions)).sum : Int) : ℚ)) / (commits.length : ℚ) := by
      simp only [analyze_file_changes, if_neg hc]
    have hta : (0 : ℚ) ≤ ((((commits.map (fun c => c.additions)).sum : Int) : ℚ)) := by
      have hint : (0 : Int) ≤ (commits.map (fun c => c.additions)).sum :=
        List.sum_nonneg (fun x hx => by
          obtain ⟨c, hcmem, rfl⟩ := List.mem_map.mp hx
          exact hadd c hcmem)
      exact_mod_cast hint
    have havg0 : 0 ≤ (analyze_file_changes commits).avg_additions_per_commit := by
      rw [havg_def]
      positivity
    have hcs0 : 0 ≤ min ((commits.length : ℚ) / (days : ℚ) * 10) 40 :=
      le_min (by positivity) (by norm_num)
    have hcs40 : min ((commits.length : ℚ) / (days : ℚ) * 10) 40 ≤ 40 :=
      min_le_right _ _
    have hms0 : 0 ≤ (analyze_commit_messages commits).conventional_percentage * (3 / 10) :=
      mul_nonneg hpct0 (by norm_num)
    have hms30 : (analyze_commit_messages commits).conventional_percentage * (3 / 10) ≤ 30 := by
      have h := mul_le_mul_of_nonneg_right hpct100 (by norm_num : (0 : ℚ) ≤ 3 / 10)
      linarith
    have hchs0 : 0 ≤ min ((analyze_file_changes commits).avg_additions_per_commit / 10) 30 :=
      le_min (div_nonneg havg0 (by norm_num)) (by norm_num)
    have hchs30 : min ((analyze_file_changes commits).avg_additions_per_commit / 10) 30 ≤ 30 :=
      min_le_right _ _
    have hscore : get_productivity_score days commits =
        round2 (min ((commits.length : ℚ) / (days : ℚ) * 10) 40 +
          (analyze_commit_messages commits).conventional_percentage * (3 / 10) +
          min ((analyze_file_changes commits).avg_additions_per_commit / 10) 30) := by
      simp only [get_productivity_score, if_neg hc]
    obtain ⟨hl, hr⟩ := round2_bounds (x := min ((commits.length : ℚ) / (days : ℚ) * 10) 40 +
        (analyze_commit_messages commits).conventional_percentage * (3 / 10) +
        min ((analyze_file_changes commits).avg_additions_per_commit / 10) 30)
      (by linarith) (by linarith)
    refine ⟨by rw [hscore, if_neg hc], ?_, ?_, fun h => absurd h hc⟩
    · rw [hscore]
      exact hl
    · rw [hscore]
      exact hr

/-- A concrete one-commit set: one non-conventional message, 10 added and 2
deleted lines in one file. -/
def sampleCommit : Commit :=
  { hash := String.toList "h1", author := String.toList "alice",
    date := String.toList "2024-01-15 10:30:00 +0000",
    message := String.toList "x",
    files := [⟨String.toList "a.py", 10, 2⟩], additions := 10, deletions := 2 }

/-- Witness for C2: one commit over 30 days with 10 additions scores
`round2(1/3 + 0 + 1) = 1.33`, inside `[0, 100]`. -/
theorem claim_C2_witness :
    ((1 : Nat) ≤ 30 ∧ ∀ c ∈ [sampleCommit], 0 ≤ c.additions) ∧
    0 ≤ get_productivity_score 30 [sampleCommit] ∧
    get_productivity_score 30 [sampleCommit] ≤ 100 ∧
    get_productivity_score 30 [sampleCommit] = 133 / 100 := by
  have h := claim_C2 30 [sampleCommit] (by norm_num) (by decide)
  refine ⟨⟨by norm_num, by decide⟩, h.2.1, h.2.2.1, ?_⟩
  have hpct : (analyze_commit_messages [sampleCommit]).conventional_percentage = 0 := by
    simp only [analyze_commit_messages]
    rw [if_neg (by decide)]
    rw [show List.countP (fun c => (matchConventional c.message).isSome)
      [sampleCommit] = 0 from by decide]
    norm_num
  have havg : (analyze_file_changes [sampleCommit]).avg_additions_per_commit = 10 := by
    simp only [analyze_file_changes]
    rw [if_neg (by decide)]
    norm_num [sampleCommit]
  rw [h.1, if_neg (by decide), hpct, havg]
  norm_num [round2, roundHalfEven, min_def]

/-- A commit touching only the extensionless file `README`. -/
def readmeCommit : Commit :=
  { hash := String.toList "h9", author := String.toList "alice",
    date := String.toList "2024-01-18 09:00:00 +0000",
    message := String.toList "update readme",
    files := [⟨String.toList "README", 5, 1⟩], additions := 5, deletions := 1 }

/-- Counterexample to claim C8: the commit's one file change (to `README`,
which has no extension) contributes to no entry of the file-extension counts —
`if ext:` skips it during counting, so it is not grouped under
"(no extension)" at render time either (the extensions dict stays empty) —
while the same change does count in the per-path churn. -/
theorem claim_C8_counterexample :
    readmeCommit.files.length = 1 ∧
    (analyze_file_changes [readmeCommit]).file_extensions = [] ∧
    (analyze_file_changes [readmeCommit]).most_changed_files =
      [(String.toList "README", 1)] :=
  ⟨rfl, by decide, by decide⟩

/-- Claim C8 as amended: only file changes whose suffix is nonempty contribute
to the extension occurrence counts (extensionless files are excluded entirely,
so the render-time "(no extension)" label never fires: every rendered key is
its own nonempty extension); the top-10 extensions and the top-10 file paths
are selected by occurrence count, in non-increasing order. -/
theorem claim_C8_amended (commits : List Commit) :
    (∀ p ∈ (analyze_file_changes commits).file_extensions,
      p.1 ≠ [] ∧ renderExtLabel p.1 = p.1 ∧ p.1 ∈ extKeys commits ∧
        p.2 = countOf (extKeys commits) p.1) ∧
    (analyze_file_changes commits).file_extensions.length ≤ 10 ∧
    (analyze_file_changes commits).file_extensions.Pairwise (fun a b =>
      countOf (extKeys commits) b.1 < countOf (extKeys commits) a.1 ∨
        (countOf (extKeys commits) a.1 = countOf (extKeys commits) b.1 ∧
          firstIdx (extKeys commits) a.1 < firstIdx (extKeys commits) b.1)) ∧
    (∀ p ∈ (analyze_file_changes commits).most_changed_files,
      p.1 ∈ allFileNames commits ∧ p.2 = countOf (allFileNames commits) p.1) ∧
    (analyze_file_changes commits).most_changed_files.length ≤ 10 ∧
    (analyze_file_changes commits).most_changed_files.Pairwise (fun a b =>
      countOf (allFileNames commits) b.1 < countOf (allFileNames commits) a.1 ∨
        (countOf (allFileNames commits) a.1 = countOf (allFileNames commits) b.1 ∧
          firstIdx (allFileNames commits) a.1 < firstIdx (allFileNames commits) b.1)) := by
  have hfe : (analyze_file_changes commits).file_extensions =
      mostCommon 10 (extKeys commits) := by
    simp only [analyze_file_changes]
  have hmc : (analyze_file_changes commits).most_changed_files =
      mostCommon 10 (allFileNames commits) := by
    simp only [analyze_file_changes]
  have hkeys : ∀ e ∈ extKeys commits, e ≠ [] := by
    intro e he
    simp only [extKeys, List.mem_filterMap] at he
    obtain ⟨f, -, hsome⟩ := he
    by_cases hsuf : pathSuffix f = []
    · rw [if_pos hsuf] at hsome
      exact absurd hsome (by simp)
    · rw [if_neg hsuf] at hsome
      obtain rfl : pathSuffix f = e := Option.some.inj hsome
      exact hsuf
  refine ⟨?_, ?_, ?_, ?_, ?_, ?_⟩
  · intro p hp
    rw [hfe] at hp
    obtain ⟨hmem, hcnt⟩ := mostCommon_mem hp
    have hne := hkeys p.1 hmem
    exact ⟨hne, by rw [renderExtLabel, if_neg hne], hmem, hcnt⟩
  · rw [hfe]
    exact mostCommon_length 10 (extKeys commits)
  · rw [hfe]
    exact mostCommon_pairwise 10 (extKeys commits)
  · intro p hp
    rw [hmc] at hp
    exact mostCommon_mem hp
  · rw [hmc]
    exact mostCommon_length 10 (allFileNames commits)
  · rw [hmc]
    exact mostCommon_pairwise 10 (allFileNames commits)

/-- Witness for C8 at a concrete commit set with one `.py` file. -/
theorem claim_C8_witness :
    ((String.toList ".py", 1) ∈ (analyze_file_changes [sampleCommit]).file_extensions) ∧
    (String.toList ".py" ≠ [] ∧
      renderExtLabel (String.toList ".py") = String.toList ".py" ∧
      String.toList ".py" ∈ extKeys [sampleCommit] ∧
      (1 : Nat) = countOf (extKeys [sampleCommit]) (String.toList ".py")) :=
  ⟨by decide, (claim_C8_amended [sampleCommit]).1 (String.toList ".py", 1) (by decide)⟩

end GitAnalyzer
